import Mathlib

/-!
Verification development for the core board-state engine of a Gomoku
(five-in-a-row) program on a 15×15 board.

The value types (`Player`, `Position`, `Direction`), the score function
`getFinalScore` and the `BoardMap` line-map bound are embedded directly from
the C++ headers `core/include/Game.h` and `core/lib/include/Pattern.h`.
The bodies of the `Board` member functions live in `core/src/Game.hpp`,
which is not part of the sources at hand; those operations are modelled
from the specification (§3, §4.1, §7) and are marked as such.

Machine integers are embedded as `Int`/`Nat`; the C++ `%` and `/` on `int`
truncate towards zero, which is `Int.tmod` / `Int.tdiv`.
-/

set_option maxRecDepth 10000

namespace Gomoku

/-- `enum GameConfig { WIDTH = 15, ... }` from `Game.h`. -/
def WIDTH : Nat := 15

/-- `HEIGHT = 15` from `Game.h`. -/
def HEIGHT : Nat := 15

/-- `MAX_RENJU = 5` from `Game.h`. -/
def MAX_RENJU : Nat := 5

/-- `BOARD_SIZE = WIDTH*HEIGHT` from `Game.h`. -/
def BOARD_SIZE : Nat := WIDTH * HEIGHT

/-- `enum class Player : char { White = -1, None = 0, Black = 1 }` from `Game.h`. -/
inductive Player where
  | White
  | None
  | Black
deriving DecidableEq, Repr

/-- The numeric encoding of a `Player`, i.e. the value of
`static_cast<char>(player)` in the C++ source. -/
def Player.toInt : Player → Int
  | Player.White => -1
  | Player.None => 0
  | Player.Black => 1

/-- `operator-(Player)` from `Game.h`: `Player(-static_cast<char>(player))`. -/
def Player.neg : Player → Player
  | Player.White => Player.Black
  | Player.None => Player.None
  | Player.Black => Player.White

/-- `getFinalScore` from `Game.h`:
`static_cast<double>(player) * static_cast<double>(winner)`.
Both factors lie in `{-1, 0, 1}`, so the `double` product is exact and is
embedded as the `Int` product of the encodings. -/
def getFinalScore (player winner : Player) : Int :=
  player.toInt * winner.toInt

/-- `struct Position { int id; ... }` from `Game.h`. -/
structure Position where
  id : Int
deriving DecidableEq, Repr

/-- `Position(int id = -1)`: the default-constructed `Position`. -/
def Position.default : Position := ⟨-1⟩

/-- `Position(int x, int y) : id(y * WIDTH + x)` from `Game.h`. -/
def Position.ofXY (x y : Int) : Position := ⟨y * (WIDTH : Int) + x⟩

/-- `constexpr int x() const { return id % WIDTH; }` — C++ `%` on `int`
truncates towards zero, i.e. `Int.tmod`. -/
def Position.x (p : Position) : Int := p.id.tmod (WIDTH : Int)

/-- `constexpr int y() const { return id / WIDTH; }` — C++ `/` on `int`
truncates towards zero, i.e. `Int.tdiv`. -/
def Position.y (p : Position) : Int := p.id.tdiv (WIDTH : Int)

/-- `enum class Direction : char` from `Pattern.h`. -/
inductive Direction where
  | Horizontal
  | Vertical
  | LeftDiag
  | RightDiag
deriving DecidableEq, Repr

/-- `operator*(Direction)` from `Pattern.h`: unpack a direction into `(Δx, Δy)`. -/
def Direction.delta : Direction → Int × Int
  | Direction.Horizontal => (1, 0)
  | Direction.Vertical => (0, 1)
  | Direction.LeftDiag => (1, 1)
  | Direction.RightDiag => (-1, 1)

/-- `Shift` from `Pattern.h`: `{ x + offset * dx, y + offset * dy }`. -/
def Shift (pose : Position) (offset : Int) (dir : Direction) : Position :=
  Position.ofXY (pose.x + offset * dir.delta.1) (pose.y + offset * dir.delta.2)

/-- The element count of `BoardMap::m_lineMap` from `Pattern.h`:
`std::array<std::string, 3*(WIDTH + HEIGHT) - 2>`. -/
def lineMapSize : Nat := 3 * (WIDTH + HEIGHT) - 2

/-- `class Board` data members from `Game.h`: the current player, the winner,
the three occupancy arrays `m_moveStates[3]` (index `0` = White, `1` = None,
`2` = Black, each `std::array<bool, BOARD_SIZE>`) and the three counters
`m_moveCounts[3]`.  The fixed-size boolean arrays are embedded as `List Bool`
of length 225. -/
structure Board where
  m_curPlayer : Player
  m_winner : Player
  stateWhite : List Bool
  stateNone : List Bool
  stateBlack : List Bool
  countWhite : Nat
  countNone : Nat
  countBlack : Nat
deriving DecidableEq, Repr

/-- `Board::moveStates(Player)` from `Game.h`: `m_moveStates[int(player) + 1]`. -/
def Board.moveStates (b : Board) : Player → List Bool
  | Player.White => b.stateWhite
  | Player.None => b.stateNone
  | Player.Black => b.stateBlack

/-- `Board::moveCounts(Player)` from `Game.h`: `m_moveCounts[int(player) + 1]`. -/
def Board.moveCounts (b : Board) : Player → Nat
  | Player.White => b.countWhite
  | Player.None => b.countNone
  | Player.Black => b.countBlack

/-- The anonymous struct returned by `Board::status()` in `Game.h`; the C++
field `end` is a reserved word in Lean and is rendered `ended`. -/
structure Status where
  ended : Bool
  curPlayer : Player
  winner : Player
deriving DecidableEq, Repr

/-- `Board::status()` from `Game.h`:
`{ m_curPlayer == Player::None, m_curPlayer, m_winner }`. -/
def Board.status (b : Board) : Status :=
  ⟨decide (b.m_curPlayer = Player.None), b.m_curPlayer, b.m_winner⟩

/-- Modelled from the spec: `Board::Board()` lives in `core/src/Game.hpp`,
which is not among the sources; §3 states the initial state
`cur_player = Black`, `winner = None`, `count[None] = 225`, others 0. -/
def Board.init : Board :=
  { m_curPlayer := Player.Black
    m_winner := Player.None
    stateWhite := List.replicate 225 false
    stateNone := List.replicate 225 true
    stateBlack := List.replicate 225 false
    countWhite := 0
    countNone := 225
    countBlack := 0 }

/-- Modelled from the spec: `Board::checkMove` lives in `core/src/Game.hpp`,
which is not among the sources; §4.1 states it is a "range and emptiness
check only". -/
def Board.checkMove (b : Board) (move : Position) : Bool :=
  decide (0 ≤ move.id ∧ move.id < (BOARD_SIZE : Int)) &&
    b.stateNone.getD move.id.toNat false

/-- Occupancy lookup by coordinates with an explicit range check, as required
of callers of `Shift` (§4.2): out-of-board coordinates read as unoccupied. -/
def stateAt (s : List Bool) (x y : Int) : Bool :=
  if 0 ≤ x ∧ x < (WIDTH : Int) ∧ 0 ≤ y ∧ y < (HEIGHT : Int) then
    s.getD (y * (WIDTH : Int) + x).toNat false
  else
    false

/-- Modelled from the spec: the victory scan of `Board::checkGameEnd`
(`core/src/Game.hpp` is not among the sources); §4.1: "scan up to 4 steps in
each sense until a mismatch or edge".  Counts consecutive occupied cells
strictly beyond `(x, y)` in direction `(dx, dy)`, stopping at the first
mismatch or edge, up to `fuel` steps. -/
def scanDir (s : List Bool) (dx dy : Int) : Nat → Int → Int → Nat
  | 0, _, _ => 0
  | fuel + 1, x, y =>
    if stateAt s (x + dx) (y + dy) = true then
      1 + scanDir s dx dy fuel (x + dx) (y + dy)
    else
      0

/-- The total run length through `pose` along `dir` in occupancy `s`:
the cell itself plus the scans in both senses, each capped at
`MAX_RENJU - 1 = 4` steps (§4.1). -/
def runLength (s : List Bool) (pose : Position) (dir : Direction) : Nat :=
  1 + scanDir s dir.delta.1 dir.delta.2 (MAX_RENJU - 1) pose.x pose.y
    + scanDir s (-dir.delta.1) (-dir.delta.2) (MAX_RENJU - 1) pose.x pose.y

/-- Modelled from the spec: "a total run of ≥ 5 same-colour stones wins"
along any of the four directions through the cell (§4.1). -/
def hasFive (s : List Bool) (pose : Position) : Bool :=
  decide (MAX_RENJU ≤ runLength s pose Direction.Horizontal) ||
  decide (MAX_RENJU ≤ runLength s pose Direction.Vertical) ||
  decide (MAX_RENJU ≤ runLength s pose Direction.LeftDiag) ||
  decide (MAX_RENJU ≤ runLength s pose Direction.RightDiag)

/-- Flip cell `i` from the None set into `p`'s set and update the counters
(the mutation step of a valid `applyMove`, §4.1). -/
def Board.place (b : Board) (p : Player) (i : Nat) : Board :=
  match p with
  | Player.Black =>
    { b with stateNone := b.stateNone.set i false
             stateBlack := b.stateBlack.set i true
             countNone := b.countNone - 1
             countBlack := b.countBlack + 1 }
  | Player.White =>
    { b with stateNone := b.stateNone.set i false
             stateWhite := b.stateWhite.set i true
             countNone := b.countNone - 1
             countWhite := b.countWhite + 1 }
  | Player.None => b

/-- Flip cell `i` from `p`'s set back into the None set and update the
counters (the mutation step of a valid `revertMove`, §4.1). -/
def Board.unplace (b : Board) (p : Player) (i : Nat) : Board :=
  match p with
  | Player.Black =>
    { b with stateNone := b.stateNone.set i true
             stateBlack := b.stateBlack.set i false
             countNone := b.countNone + 1
             countBlack := b.countBlack - 1 }
  | Player.White =>
    { b with stateNone := b.stateNone.set i true
             stateWhite := b.stateWhite.set i false
             countNone := b.countNone + 1
             countWhite := b.countWhite - 1 }
  | Player.None => b

/-- Modelled from the spec: `Board::applyMove` lives in `core/src/Game.hpp`,
which is not among the sources; behaviour per §4.1: a failed precondition
(out of range, occupied, or game ended) returns `cur_player` with the state
untouched; otherwise the stone is placed, then victory, then the draw on a
full board, are checked. -/
def Board.applyMove (b : Board) (move : Position) (checkVictory : Bool := true) :
    Player × Board :=
  if b.m_curPlayer = Player.None ∨ b.checkMove move = false then
    (b.m_curPlayer, b)
  else
    let p := b.m_curPlayer
    let b1 := b.place p move.id.toNat
    if checkVictory = true ∧ hasFive (b1.moveStates p) move = true then
      (Player.None, { b1 with m_curPlayer := Player.None, m_winner := p })
    else if b1.countNone = 0 then
      (Player.None, { b1 with m_curPlayer := Player.None, m_winner := Player.None })
    else
      (p.neg, { b1 with m_curPlayer := p.neg })

/-- Modelled from the spec: `Board::revertMove` lives in `core/src/Game.hpp`,
which is not among the sources; behaviour per §4.1: a cell unset among
Black/White is a silent no-op (out-of-range cells read as unset); otherwise
the owning colour is flipped back to None, `winner` is cleared, and the turn
passes to the owner of the removed stone. -/
def Board.revertMove (b : Board) (move : Position) : Player × Board :=
  if ¬(0 ≤ move.id ∧ move.id < (BOARD_SIZE : Int)) then
    (b.m_curPlayer, b)
  else
    let i := move.id.toNat
    let owner : Player :=
      if b.stateBlack.getD i false = true then Player.Black
      else if b.stateWhite.getD i false = true then Player.White
      else Player.None
    if owner = Player.None then
      (b.m_curPlayer, b)
    else
      let next := if b.m_curPlayer = Player.None then owner else b.m_curPlayer.neg
      (next, { b.unplace owner i with m_curPlayer := next, m_winner := Player.None })

/-- The index of the `k`-th `true` entry of a list (0-based), if any. -/
def nthTrue : List Bool → Nat → Option Nat
  | [], _ => Option.none
  | true :: _, 0 => Option.some 0
  | true :: l, k + 1 => (nthTrue l k).map (· + 1)
  | false :: l, k => (nthTrue l k).map (· + 1)

/-- Modelled from the spec: `Board::getRandomMove` lives in
`core/src/Game.hpp`, which is not among the sources; §4.1/§7: "draw
uniformly from the None-set. Fails (raises) when the set is empty."  The
random draw is embedded by an explicit seed reduced modulo the size of the
None set; the raised exception becomes `Except.error`. -/
def Board.getRandomMove (b : Board) (seed : Nat) : Except String Position :=
  if b.countNone = 0 then
    Except.error "no legal move"
  else
    match nthTrue b.stateNone (seed % b.countNone) with
    | Option.some i => Except.ok ⟨(i : Int)⟩
    | Option.none => Except.error "no legal move"

/-- Fold a sequence of `applyMove` calls (with the default victory check). -/
def Board.applyAll (b : Board) (s : List Position) : Board :=
  s.foldl (fun acc pose => (acc.applyMove pose).2) b

/-- Fold a sequence of `revertMove` calls. -/
def Board.revertAll (b : Board) (s : List Position) : Board :=
  s.foldl (fun acc pose => (acc.revertMove pose).2) b

/-- A sequence of moves each of which satisfies the `applyMove`
preconditions (§4.1) in the state where it is played. -/
def Board.ValidSeq : Board → List Position → Prop
  | _, [] => True
  | b, pose :: rest =>
    b.checkMove pose = true ∧ b.m_curPlayer ≠ Player.None ∧
      Board.ValidSeq (b.applyMove pose).2 rest

instance Board.ValidSeq.decidable : ∀ (b : Board) (s : List Position),
    Decidable (Board.ValidSeq b s)
  | _, [] => isTrue trivial
  | b, pose :: rest =>
    have : Decidable (Board.ValidSeq (b.applyMove pose).2 rest) :=
      Board.ValidSeq.decidable _ rest
    inferInstanceAs (Decidable (_ ∧ _ ∧ _))

/-- The Board states reachable from the initial board through
`applyMove` / `revertMove` calls, valid or invalid. -/
inductive Board.Reachable : Board → Prop
  | init : Board.Reachable Board.init
  | apply (b : Board) (move : Position) (cv : Bool) :
      Board.Reachable b → Board.Reachable (b.applyMove move cv).2
  | revert (b : Board) (move : Position) :
      Board.Reachable b → Board.Reachable (b.revertMove move).2

/-- The board comparison used by the integration test
(`board_integrationtest.cpp`, `operator==`): compare
`(m_curPlayer, m_winner, m_moveCounts[0..2])` only. -/
def Board.tiedEq (l r : Board) : Bool :=
  decide (l.m_curPlayer = r.m_curPlayer) && decide (l.m_winner = r.m_winner) &&
  decide (l.countWhite = r.countWhite) && decide (l.countNone = r.countNone) &&
  decide (l.countBlack = r.countBlack)

/-- The move sequence of the "diagonal five for Black" scenario
(`BoardTest.CheckVictory`): `B(3,3), W(3,4), B(4,4), W(3,5), B(5,5),
W(3,6), B(6,6), W(3,7), B(7,7)`. -/
def blackDiagonal : List Position :=
  [Position.ofXY 3 3, Position.ofXY 3 4, Position.ofXY 4 4, Position.ofXY 3 5,
   Position.ofXY 5 5, Position.ofXY 3 6, Position.ofXY 6 6, Position.ofXY 3 7,
   Position.ofXY 7 7]

/-- Exactly one of the three per-cell occupancy bits is set (§3). -/
def exactlyOne (w n b : Bool) : Bool :=
  (w && !n && !b) || (!w && n && !b) || (!w && !n && b)

/-- The representation invariant of `Board` (§3): array lengths, counter
consistency with the occupancy arrays, count conservation, one bit per cell,
and winner consistency. -/
structure BoardInv (b : Board) : Prop where
  lenW : b.stateWhite.length = 225
  lenN : b.stateNone.length = 225
  lenB : b.stateBlack.length = 225
  cntW : b.countWhite = b.stateWhite.count true
  cntN : b.countNone = b.stateNone.count true
  cntB : b.countBlack = b.stateBlack.count true
  total : b.countWhite + b.countNone + b.countBlack = 225
  cell : ∀ i, i < 225 →
    exactlyOne (b.stateWhite.getD i false) (b.stateNone.getD i false)
      (b.stateBlack.getD i false) = true
  winOk : b.m_curPlayer ≠ Player.None → b.m_winner = Player.None

theorem lt_length_of_getD_true : ∀ (l : List Bool) (i : Nat),
    l.getD i false = true → i < l.length
  | [], _, h => by simp at h
  | _ :: _, 0, _ => Nat.succ_pos _
  | _ :: l, i + 1, h =>
    Nat.succ_lt_succ (lt_length_of_getD_true l i (by simpa using h))

theorem getD_set_self : ∀ (l : List Bool) (i : Nat) (a : Bool),
    i < l.length → (l.set i a).getD i false = a
  | [], i, _, h => absurd h (Nat.not_lt_zero i)
  | _ :: _, 0, _, _ => rfl
  | _ :: l, i + 1, a, h => by
    simp only [List.set_cons_succ, List.getD_cons_succ]
    exact getD_set_self l i a (Nat.lt_of_succ_lt_succ h)

theorem getD_set_ne : ∀ (l : List Bool) (i j : Nat) (a : Bool),
    i ≠ j → (l.set i a).getD j false = l.getD j false
  | [], _, _, _, _ => by simp
  | _ :: _, 0, 0, _, h => absurd rfl h
  | _ :: _, 0, _ + 1, _, _ => by simp
  | _ :: _, _ + 1, 0, _, _ => by simp
  | _ :: l, i + 1, j + 1, a, h => by
    simp only [List.set_cons_succ, List.getD_cons_succ]
    exact getD_set_ne l i j a (fun hh => h (by rw [hh]))

theorem set_getD_eq : ∀ (l : List Bool) (i : Nat) (a : Bool),
    l.getD i false = a → l.set i a = l
  | [], _, _, _ => rfl
  | x :: l, 0, a, h => by
    simp only [List.getD_cons_zero] at h
    simp [h]
  | x :: l, i + 1, a, h => by
    simp only [List.set_cons_succ]
    rw [set_getD_eq l i a (by simpa using h)]

theorem count_set_true : ∀ (l : List Bool) (i : Nat),
    l.getD i false = false → i < l.length →
    (l.set i true).count true = l.count true + 1
  | [], i, _, h => absurd h (Nat.not_lt_zero i)
  | x :: l, 0, h, _ => by
    simp only [List.getD_cons_zero] at h
    subst h
    simp [List.count_cons]
  | x :: l, i + 1, h, hl => by
    simp only [List.set_cons_succ, List.count_cons]
    rw [count_set_true l i (by simpa using h) (Nat.lt_of_succ_lt_succ hl)]
    omega

theorem count_set_false : ∀ (l : List Bool) (i : Nat),
    l.getD i false = true →
    (l.set i false).count true + 1 = l.count true
  | [], i, h => by simp at h
  | x :: l, 0, h => by
    simp only [List.getD_cons_zero] at h
    subst h
    simp [List.count_cons]
  | x :: l, i + 1, h => by
    simp only [List.set_cons_succ, List.count_cons]
    have := count_set_false l i (by simpa using h)
    omega

theorem count_pos_of_getD_true (l : List Bool) (i : Nat)
    (h : l.getD i false = true) : 1 ≤ l.count true := by
  induction l generalizing i with
  | nil => simp at h
  | cons x l ih =>
    cases i with
    | zero =>
      simp only [List.getD_cons_zero] at h
      subst h
      simp [List.count_cons]
    | succ i =>
      have := ih i (by simpa using h)
      simp only [List.count_cons]
      omega

theorem exactlyOne_of_none {w n b : Bool} (h : exactlyOne w n b = true)
    (hn : n = true) : w = false ∧ b = false := by
  subst hn
  cases w <;> cases b <;> simp_all [exactlyOne]

theorem exactlyOne_of_black {w n b : Bool} (h : exactlyOne w n b = true)
    (hb : b = true) : w = false ∧ n = false := by
  subst hb
  cases w <;> cases n <;> simp_all [exactlyOne]

theorem exactlyOne_of_white {w n b : Bool} (h : exactlyOne w n b = true)
    (hw : w = true) : n = false ∧ b = false := by
  subst hw
  cases n <;> cases b <;> simp_all [exactlyOne]

theorem checkMove_true_iff (b : Board) (move : Position) :
    b.checkMove move = true ↔
      (0 ≤ move.id ∧ move.id < (BOARD_SIZE : Int)) ∧
        b.stateNone.getD move.id.toNat false = true := by
  simp [Board.checkMove]

theorem boardSizeInt : (BOARD_SIZE : Int) = 225 := by decide

theorem inv_init : BoardInv Board.init :=
  ⟨by decide, by decide, by decide, by decide, by decide, by decide,
    by decide, by decide, fun _ => rfl⟩

theorem inv_place (b : Board) (p : Player) (i : Nat)
    (hp : p ≠ Player.None) (hi : i < 225)
    (hnone : b.stateNone.getD i false = true)
    (h : BoardInv b) : BoardInv (b.place p i) := by
  obtain ⟨hW, hB⟩ := exactlyOne_of_none (h.cell i hi) hnone
  have hposN : 1 ≤ b.stateNone.count true := count_pos_of_getD_true _ i hnone
  have hiN : i < b.stateNone.length := h.lenN ▸ hi
  have hsetN := count_set_false b.stateNone i hnone
  have hc1 := h.cntW
  have hc2 := h.cntN
  have hc3 := h.cntB
  have ht := h.total
  cases p with
  | None => exact absurd rfl hp
  | Black =>
    have hiB : i < b.stateBlack.length := h.lenB ▸ hi
    have hsetB := count_set_true b.stateBlack i hB hiB
    refine ⟨h.lenW, ?_, ?_, h.cntW, ?_, ?_, ?_, ?_, h.winOk⟩
    · simpa [Board.place] using h.lenN
    · simpa [Board.place] using h.lenB
    · simp only [Board.place]
      omega
    · simp only [Board.place]
      rw [hsetB]
      omega
    · simp only [Board.place]
      omega
    · intro j hj
      simp only [Board.place]
      by_cases hji : j = i
      · subst hji
        rw [getD_set_self _ _ _ hiN, getD_set_self _ _ _ hiB, hW]
        decide
      · rw [getD_set_ne _ _ _ _ (fun hh => hji hh.symm),
          getD_set_ne _ _ _ _ (fun hh => hji hh.symm)]
        exact h.cell j hj
  | White =>
    have hiW : i < b.stateWhite.length := h.lenW ▸ hi
    have hsetW := count_set_true b.stateWhite i hW hiW
    refine ⟨?_, ?_, h.lenB, ?_, ?_, h.cntB, ?_, ?_, h.winOk⟩
    · simpa [Board.place] using h.lenW
    · simpa [Board.place] using h.lenN
    · simp only [Board.place]
      rw [hsetW]
      omega
    · simp only [Board.place]
      omega
    · simp only [Board.place]
      omega
    · intro j hj
      simp only [Board.place]
      by_cases hji : j = i
      · subst hji
        rw [getD_set_self _ _ _ hiN, getD_set_self _ _ _ hiW, hB]
        decide
      · rw [getD_set_ne _ _ _ _ (fun hh => hji hh.symm),
          getD_set_ne _ _ _ _ (fun hh => hji hh.symm)]
        exact h.cell j hj

theorem inv_unplace (b : Board) (p : Player) (i : Nat)
    (hi : i < 225)
    (hown : (b.moveStates p).getD i false = true)
    (hp : p ≠ Player.None)
    (h : BoardInv b) : BoardInv (b.unplace p i) := by
  have hiN : i < b.stateNone.length := h.lenN ▸ hi
  have hc1 := h.cntW
  have hc2 := h.cntN
  have hc3 := h.cntB
  have ht := h.total
  cases p with
  | None => exact absurd rfl hp
  | Black =>
    obtain ⟨hW, hN⟩ := exactlyOne_of_black (h.cell i hi) hown
    have hposB : 1 ≤ b.stateBlack.count true := count_pos_of_getD_true _ i hown
    have hsetB := count_set_false b.stateBlack i hown
    have hsetN := count_set_true b.stateNone i hN hiN
    have hiB : i < b.stateBlack.length := h.lenB ▸ hi
    refine ⟨h.lenW, ?_, ?_, h.cntW, ?_, ?_, ?_, ?_, h.winOk⟩
    · simpa [Board.unplace] using h.lenN
    · simpa [Board.unplace] using h.lenB
    · simp only [Board.unplace]
      rw [hsetN]
      omega
    · simp only [Board.unplace]
      omega
    · simp only [Board.unplace]
      omega
    · intro j hj
      simp only [Board.unplace]
      by_cases hji : j = i
      · subst hji
        rw [getD_set_self _ _ _ hiN, getD_set_self _ _ _ hiB, hW]
        decide
      · rw [getD_set_ne _ _ _ _ (fun hh => hji hh.symm),
          getD_set_ne _ _ _ _ (fun hh => hji hh.symm)]
        exact h.cell j hj
  | White =>
    obtain ⟨hN, hB⟩ := exactlyOne_of_white (h.cell i hi) hown
    have hposW : 1 ≤ b.stateWhite.count true := count_pos_of_getD_true _ i hown
    have hsetW := count_set_false b.stateWhite i hown
    have hsetN := count_set_true b.stateNone i hN hiN
    have hiW : i < b.stateWhite.length := h.lenW ▸ hi
    refine ⟨?_, ?_, h.lenB, ?_, ?_, h.cntB, ?_, ?_, h.winOk⟩
    · simpa [Board.unplace] using h.lenW
    · simpa [Board.unplace] using h.lenN
    · simp only [Board.unplace]
      omega
    · simp only [Board.unplace]
      rw [hsetN]
      omega
    · simp only [Board.unplace]
      omega
    · intro j hj
      simp only [Board.unplace]
      by_cases hji : j = i
      · subst hji
        rw [getD_set_self _ _ _ hiN, getD_set_self _ _ _ hiW, hB]
        decide
      · rw [getD_set_ne _ _ _ _ (fun hh => hji hh.symm),
          getD_set_ne _ _ _ _ (fun hh => hji hh.symm)]
        exact h.cell j hj

theorem inv_override (b : Board) (cp w : Player) (h : BoardInv b)
    (hw : cp ≠ Player.None → w = Player.None) :
    BoardInv { b with m_curPlayer := cp, m_winner := w } :=
  ⟨h.lenW, h.lenN, h.lenB, h.cntW, h.cntN, h.cntB, h.total, h.cell, hw⟩

theorem toNat_lt_of_range {x : Int} (h0 : 0 ≤ x)
    (h1 : x < (BOARD_SIZE : Int)) : x.toNat < 225 := by
  rw [boardSizeInt] at h1
  omega

theorem place_winner (b : Board) (p : Player) (i : Nat) :
    (b.place p i).m_winner = b.m_winner := by
  cases p <;> rfl

theorem inv_applyMove (b : Board) (move : Position) (cv : Bool)
    (h : BoardInv b) : BoardInv (b.applyMove move cv).2 := by
  by_cases hg : b.m_curPlayer = Player.None ∨ b.checkMove move = false
  · simp only [Board.applyMove, if_pos hg]
    exact h
  · have hcur : b.m_curPlayer ≠ Player.None := fun hc => hg (Or.inl hc)
    have hcm : b.checkMove move = true := by
      cases hx : b.checkMove move
      · exact absurd (Or.inr hx) hg
      · rfl
    obtain ⟨⟨h0, h1⟩, hbit⟩ := (checkMove_true_iff b move).mp hcm
    have hi : move.id.toNat < 225 := toNat_lt_of_range h0 h1
    have hplace := inv_place b b.m_curPlayer move.id.toNat hcur hi hbit h
    simp only [Board.applyMove, if_neg hg]
    split
    · exact inv_override _ _ _ hplace (fun hc => absurd rfl hc)
    · split
      · exact inv_override _ _ _ hplace (fun _ => rfl)
      · exact inv_override _ _ _ hplace
          (fun _ => (place_winner b _ _).trans (h.winOk hcur))

theorem inv_revertMove (b : Board) (move : Position) (h : BoardInv b) :
    BoardInv (b.revertMove move).2 := by
  by_cases hr : ¬(0 ≤ move.id ∧ move.id < (BOARD_SIZE : Int))
  · simp only [Board.revertMove, if_pos hr]
    exact h
  · rw [not_not] at hr
    obtain ⟨h0, h1⟩ := hr
    have hi : move.id.toNat < 225 := toNat_lt_of_range h0 h1
    have hguard : ¬¬(0 ≤ move.id ∧ move.id < (BOARD_SIZE : Int)) :=
      not_not_intro ⟨h0, h1⟩
    simp only [Board.revertMove, if_neg hguard]
    by_cases hBbit : b.stateBlack.getD move.id.toNat false = true
    · simp only [hBbit, if_true]
      rw [if_neg (by decide : ¬(Player.Black = Player.None))]
      exact inv_override _ _ _
        (inv_unplace b Player.Black _ hi hBbit (by decide) h) (fun _ => rfl)
    · simp only [Bool.not_eq_true] at hBbit
      simp only [hBbit]
      rw [if_neg (by decide : ¬(false = true))]
      by_cases hWbit : b.stateWhite.getD move.id.toNat false = true
      · simp only [hWbit, if_true]
        rw [if_neg (by decide : ¬(Player.White = Player.None))]
        exact inv_override _ _ _
          (inv_unplace b Player.White _ hi hWbit (by decide) h) (fun _ => rfl)
      · simp only [Bool.not_eq_true] at hWbit
        simp only [hWbit]
        rw [if_neg (by decide : ¬(false = true)), if_pos rfl]
        exact h

theorem reachable_inv (b : Board) (h : Board.Reachable b) : BoardInv b := by
  induction h with
  | init => exact inv_init
  | apply b' move cv _ ih => exact inv_applyMove b' move cv ih
  | revert b' move _ ih => exact inv_revertMove b' move ih

theorem boardMk_eq (cp w : Player) (sW sN sB : List Bool) (cW cN cB : Nat)
    (b : Board) :
    Board.mk cp w sW sN sB cW cN cB = b ↔
      cp = b.m_curPlayer ∧ w = b.m_winner ∧ sW = b.stateWhite ∧
      sN = b.stateNone ∧ sB = b.stateBlack ∧ cW = b.countWhite ∧
      cN = b.countNone ∧ cB = b.countBlack := by
  cases b
  simp

theorem revert_of_place (b : Board) (move : Position) (c' w' : Player)
    (h : BoardInv b) (h0 : 0 ≤ move.id) (h1 : move.id < (BOARD_SIZE : Int))
    (hbit : b.stateNone.getD move.id.toNat false = true)
    (hcur : b.m_curPlayer ≠ Player.None)
    (hnext : (if c' = Player.None then b.m_curPlayer else c'.neg) = b.m_curPlayer) :
    (({ b.place b.m_curPlayer move.id.toNat with
        m_curPlayer := c', m_winner := w' } : Board).revertMove move).2 = b := by
  have hi : move.id.toNat < 225 := toNat_lt_of_range h0 h1
  obtain ⟨hW, hB⟩ := exactlyOne_of_none (h.cell _ hi) hbit
  have hwin := h.winOk hcur
  have hposN : 1 ≤ b.stateNone.count true := count_pos_of_getD_true _ _ hbit
  have hcN := h.cntN
  have hguard : ¬¬(0 ≤ move.id ∧ move.id < (BOARD_SIZE : Int)) :=
    not_not_intro ⟨h0, h1⟩
  cases hp : b.m_curPlayer with
  | None => exact absurd hp hcur
  | Black =>
    have hBset : (b.stateBlack.set move.id.toNat true).getD move.id.toNat false
        = true := getD_set_self _ _ _ (h.lenB ▸ hi)
    simp only [Board.revertMove, if_neg hguard, Board.place, hBset, if_true]
    rw [if_neg (by decide : ¬(Player.Black = Player.None))]
    simp only [Board.unplace]
    rw [boardMk_eq]
    refine ⟨?_, hwin.symm, rfl, ?_, ?_, rfl, ?_, ?_⟩
    · rw [hp] at hnext ⊢
      exact hnext
    · rw [List.set_set]
      exact set_getD_eq _ _ _ hbit
    · rw [List.set_set]
      exact set_getD_eq _ _ _ hB
    · omega
    · omega
  | White =>
    have hWset : (b.stateWhite.set move.id.toNat true).getD move.id.toNat false
        = true := getD_set_self _ _ _ (h.lenW ▸ hi)
    have hBkeep : b.stateBlack.getD move.id.toNat false = false := hB
    simp only [Board.revertMove, if_neg hguard, Board.place, hBkeep, hWset, if_true]
    rw [if_neg (by decide : ¬(false = true)), if_neg
      (by decide : ¬(Player.White = Player.None))]
    simp only [Board.unplace]
    rw [boardMk_eq]
    refine ⟨?_, hwin.symm, ?_, ?_, rfl, ?_, ?_, rfl⟩
    · rw [hp] at hnext ⊢
      exact hnext
    · rw [List.set_set]
      exact set_getD_eq _ _ _ hW
    · rw [List.set_set]
      exact set_getD_eq _ _ _ hbit
    · omega
    · omega

theorem revert_applyMove (b : Board) (move : Position)
    (h : BoardInv b) (hcm : b.checkMove move = true)
    (hcur : b.m_curPlayer ≠ Player.None) :
    ((b.applyMove move).2.revertMove move).2 = b := by
  obtain ⟨⟨h0, h1⟩, hbit⟩ := (checkMove_true_iff b move).mp hcm
  have hguard : ¬(b.m_curPlayer = Player.None ∨ b.checkMove move = false) := by
    intro hc
    cases hc with
    | inl hc => exact hcur hc
    | inr hc =>
      rw [hcm] at hc
      cases hc
  simp only [Board.applyMove, if_neg hguard]
  split
  · exact revert_of_place b move _ _ h h0 h1 hbit hcur (by simp)
  · split
    · exact revert_of_place b move _ _ h h0 h1 hbit hcur (by simp)
    · refine revert_of_place b move _ _ h h0 h1 hbit hcur ?_
      cases hp : b.m_curPlayer with
      | None => exact absurd hp hcur
      | Black => decide
      | White => decide

theorem applyAll_cons (b : Board) (pose : Position) (rest : List Position) :
    b.applyAll (pose :: rest) = ((b.applyMove pose).2.applyAll rest) := rfl

theorem revertAll_append (b : Board) (s t : List Position) :
    b.revertAll (s ++ t) = (b.revertAll s).revertAll t := by
  simp [Board.revertAll, List.foldl_append]

theorem revertAll_single (b : Board) (pose : Position) :
    b.revertAll [pose] = (b.revertMove pose).2 := rfl

theorem validSeq_applyAll_revertAll : ∀ (s : List Position) (b : Board),
    BoardInv b → Board.ValidSeq b s →
    (b.applyAll s).revertAll s.reverse = b
  | [], _, _, _ => rfl
  | pose :: rest, b, h, hv => by
    obtain ⟨hcm, hcur, hv'⟩ := hv
    rw [applyAll_cons, List.reverse_cons, revertAll_append,
      validSeq_applyAll_revertAll rest _ (inv_applyMove b pose true h) hv',
      revertAll_single]
    exact revert_applyMove b pose h hcm hcur

/-- C1: for every sequence `s` of valid `applyMove` calls starting from the
initial `Board`, applying `s` and then calling `revertMove` on the same
positions in reverse order yields a board equal to the initial board in
`cur_player`, `winner` and the three move counts. -/
theorem applyRevert_symmetry (s : List Position)
    (hv : Board.ValidSeq Board.init s) :
    ((Board.init.applyAll s).revertAll s.reverse).tiedEq Board.init = true := by
  rw [validSeq_applyAll_revertAll s Board.init inv_init hv]
  decide

/-- Witness for C1 at a concrete two-move sequence. -/
theorem applyRevert_symmetry_witness :
    Board.ValidSeq Board.init [Position.ofXY 3 3, Position.ofXY 11 7] ∧
    ((Board.init.applyAll [Position.ofXY 3 3, Position.ofXY 11 7]).revertAll
      [Position.ofXY 3 3, Position.ofXY 11 7].reverse).tiedEq Board.init = true :=
  ⟨by decide, applyRevert_symmetry [Position.ofXY 3 3, Position.ofXY 11 7]
    (by decide)⟩

/-- C2: after every board operation (hence in every reachable state), the
three stone counts sum to 225. -/
theorem count_conservation (b : Board) (h : Board.Reachable b) :
    b.moveCounts Player.Black + b.moveCounts Player.White +
      b.moveCounts Player.None = 225 := by
  have htot := (reachable_inv b h).total
  simp only [Board.moveCounts]
  omega

/-- Witness for C2 after one `applyMove` from the initial board. -/
theorem count_conservation_witness :
    (Board.init.applyMove (Position.ofXY 7 7) true).2.moveCounts Player.Black +
    (Board.init.applyMove (Position.ofXY 7 7) true).2.moveCounts Player.White +
    (Board.init.applyMove (Position.ofXY 7 7) true).2.moveCounts Player.None
      = 225 :=
  count_conservation _
    (Board.Reachable.apply Board.init (Position.ofXY 7 7) true
      Board.Reachable.init)

/-- C3: in every reachable state, `cur_player = None` iff the game has ended
(the `end` flag of `status()`), and while `cur_player ≠ None` the winner
field is `None`. -/
theorem winner_consistency (b : Board) (h : Board.Reachable b) :
    (b.m_curPlayer = Player.None ↔ (b.status).ended = true) ∧
    (b.m_curPlayer ≠ Player.None → b.m_winner = Player.None) := by
  refine ⟨?_, (reachable_inv b h).winOk⟩
  simp [Board.status]

/-- Witness for C3 after one `applyMove` from the initial board. -/
theorem winner_consistency_witness :
    ((Board.init.applyMove (Position.ofXY 7 7) true).2.m_curPlayer =
        Player.None ↔
      ((Board.init.applyMove (Position.ofXY 7 7) true).2.status).ended = true) ∧
    ((Board.init.applyMove (Position.ofXY 7 7) true).2.m_curPlayer ≠
        Player.None →
      (Board.init.applyMove (Position.ofXY 7 7) true).2.m_winner =
        Player.None) :=
  winner_consistency _
    (Board.Reachable.apply Board.init (Position.ofXY 7 7) true
      Board.Reachable.init)

/-- C4: an `applyMove` whose position is out of range, already occupied, or
made after the game has ended returns the current side to move and leaves
the state bit-identical; a `revertMove` on a currently empty cell likewise. -/
theorem invalid_noop :
    (∀ (b : Board) (move : Position) (cv : Bool),
      (¬(0 ≤ move.id ∧ move.id < (BOARD_SIZE : Int)) ∨
        b.stateNone.getD move.id.toNat false = false ∨
        b.m_curPlayer = Player.None) →
      b.applyMove move cv = (b.m_curPlayer, b)) ∧
    (∀ (b : Board) (move : Position),
      (¬(0 ≤ move.id ∧ move.id < (BOARD_SIZE : Int)) ∨
        (b.stateBlack.getD move.id.toNat false = false ∧
          b.stateWhite.getD move.id.toNat false = false)) →
      b.revertMove move = (b.m_curPlayer, b)) := by
  constructor
  · intro b move cv hbad
    have hg : b.m_curPlayer = Player.None ∨ b.checkMove move = false := by
      rcases hbad with hbad | hbad | hbad
      · right
        simp [Board.checkMove, hbad]
      · right
        simp only [Board.checkMove]
        rw [hbad, Bool.and_false]
      · left
        exact hbad
    simp only [Board.applyMove]
    rw [if_pos hg]
  · intro b move hbad
    rcases hbad with hbad | ⟨hbB, hbW⟩
    · simp only [Board.revertMove]
      rw [if_pos hbad]
    · by_cases hr : 0 ≤ move.id ∧ move.id < (BOARD_SIZE : Int)
      · simp only [Board.revertMove, if_neg (not_not_intro hr), hbB, hbW]
        rw [if_neg (by decide : ¬(false = true)),
          if_neg (by decide : ¬(false = true)), if_pos rfl]
      · simp only [Board.revertMove]
        rw [if_pos hr]

/-- Witness for C4: an out-of-range apply and an empty-cell revert on the
initial board. -/
theorem invalid_noop_witness :
    Board.init.applyMove ⟨-3⟩ true = (Board.init.m_curPlayer, Board.init) ∧
    Board.init.revertMove (Position.ofXY 7 7) =
      (Board.init.m_curPlayer, Board.init) :=
  ⟨invalid_noop.1 Board.init ⟨-3⟩ true (Or.inl (by decide)),
    invalid_noop.2 Board.init (Position.ofXY 7 7)
      (Or.inr ⟨by decide, by decide⟩)⟩

theorem scanDir_ge (s : List Bool) (dx dy : Int) :
    ∀ (m fuel : Nat) (x y : Int), m ≤ fuel →
    (∀ i : Nat, 1 ≤ i → i ≤ m →
      stateAt s (x + (i : Int) * dx) (y + (i : Int) * dy) = true) →
    m ≤ scanDir s dx dy fuel x y := by
  intro m
  induction m with
  | zero =>
    intro fuel x y _ _
    exact Nat.zero_le _
  | succ m ih =>
    intro fuel x y hm hcells
    cases fuel with
    | zero => omega
    | succ fuel =>
      have h1 : stateAt s (x + dx) (y + dy) = true := by
        have := hcells 1 (Nat.le_refl 1) (by omega)
        simpa using this
      simp only [scanDir, h1, if_true]
      have hrec : m ≤ scanDir s dx dy fuel (x + dx) (y + dy) := by
        apply ih fuel (x + dx) (y + dy) (by omega)
        intro i hi1 him
        have hcell := hcells (i + 1) (by omega) (by omega)
        have hx : x + ((i + 1 : Nat) : Int) * dx = x + dx + (i : Int) * dx := by
          push_cast
          ring
        have hy : y + ((i + 1 : Nat) : Int) * dy = y + dy + (i : Int) * dy := by
          push_cast
          ring
        rw [hx, hy] at hcell
        exact hcell
      omega

theorem runLength_ge_five (s : List Bool) (pose : Position) (d : Direction)
    (k : Nat) (hk : k < 5)
    (hrun : ∀ j : Nat, j < 5 →
      stateAt s (pose.x + ((j : Int) - (k : Int)) * d.delta.1)
        (pose.y + ((j : Int) - (k : Int)) * d.delta.2) = true) :
    5 ≤ runLength s pose d := by
  have hfwd : 4 - k ≤ scanDir s d.delta.1 d.delta.2 4 pose.x pose.y := by
    apply scanDir_ge s _ _ (4 - k) 4 pose.x pose.y (by omega)
    intro i hi1 him
    have hcell := hrun (k + i) (by omega)
    have harith : ((k + i : Nat) : Int) - (k : Int) = (i : Int) := by
      push_cast
      ring
    rw [harith] at hcell
    exact hcell
  have hbwd : k ≤ scanDir s (-d.delta.1) (-d.delta.2) 4 pose.x pose.y := by
    apply scanDir_ge s _ _ k 4 pose.x pose.y (by omega)
    intro i hi1 him
    have hcell := hrun (k - i) (by omega)
    have harith : ((k - i : Nat) : Int) - (k : Int) = -(i : Int) := by
      have : ((k - i : Nat) : Int) = (k : Int) - (i : Int) := by
        push_cast [him]
        ring
      rw [this]
      ring
    rw [harith] at hcell
    have hx : pose.x + -(i : Int) * d.delta.1 =
        pose.x + (i : Int) * -d.delta.1 := by ring
    have hy : pose.y + -(i : Int) * d.delta.2 =
        pose.y + (i : Int) * -d.delta.2 := by ring
    rw [hx, hy] at hcell
    exact hcell
  have hr : runLength s pose d =
      1 + scanDir s d.delta.1 d.delta.2 4 pose.x pose.y
        + scanDir s (-d.delta.1) (-d.delta.2) 4 pose.x pose.y := rfl
  rw [hr]
  omega

theorem hasFive_of_run (s : List Bool) (pose : Position) (d : Direction)
    (k : Nat) (hk : k < 5)
    (hrun : ∀ j : Nat, j < 5 →
      stateAt s (pose.x + ((j : Int) - (k : Int)) * d.delta.1)
        (pose.y + ((j : Int) - (k : Int)) * d.delta.2) = true) :
    hasFive s pose = true := by
  have h5 := runLength_ge_five s pose d k hk hrun
  cases d with
  | Horizontal =>
    simp only [hasFive, Bool.or_eq_true, decide_eq_true_iff]
    exact Or.inl (Or.inl (Or.inl h5))
  | Vertical =>
    simp only [hasFive, Bool.or_eq_true, decide_eq_true_iff]
    exact Or.inl (Or.inl (Or.inr h5))
  | LeftDiag =>
    simp only [hasFive, Bool.or_eq_true, decide_eq_true_iff]
    exact Or.inl (Or.inr h5)
  | RightDiag =>
    simp only [hasFive, Bool.or_eq_true, decide_eq_true_iff]
    exact Or.inr h5

theorem place_moveStates (b : Board) (p : Player) (i : Nat)
    (hp : p ≠ Player.None) :
    (b.place p i).moveStates p = (b.moveStates p).set i true := by
  cases p with
  | None => exact absurd rfl hp
  | Black => rfl
  | White => rfl

/-- C5: a valid move that completes a run of five (or more) consecutive
same-colour stones along some direction ends the game with `winner` the
moving colour and `cur_player = None`; and the concrete diagonal scenario
`B(3,3), W(3,4), B(4,4), W(3,5), B(5,5), W(3,6), B(6,6), W(3,7), B(7,7)`
ends after the 9th move with `status.end = true`, `winner = Black`,
`cur_player = None`. -/
theorem five_implies_end :
    (∀ (b : Board) (move : Position) (d : Direction) (k : Nat),
      b.m_curPlayer ≠ Player.None →
      b.checkMove move = true →
      k < 5 →
      (∀ j : Nat, j < 5 →
        stateAt ((b.moveStates b.m_curPlayer).set move.id.toNat true)
          (move.x + ((j : Int) - (k : Int)) * d.delta.1)
          (move.y + ((j : Int) - (k : Int)) * d.delta.2) = true) →
      (b.applyMove move true).1 = Player.None ∧
      (b.applyMove move true).2.m_winner = b.m_curPlayer ∧
      (b.applyMove move true).2.m_curPlayer = Player.None ∧
      ((b.applyMove move true).2.status).ended = true) ∧
    (((Board.init.applyAll blackDiagonal).status).ended = true ∧
      (Board.init.applyAll blackDiagonal).m_winner = Player.Black ∧
      (Board.init.applyAll blackDiagonal).m_curPlayer = Player.None) := by
  constructor
  · intro b move d k hcur hcm hk hrun
    have hguard : ¬(b.m_curPlayer = Player.None ∨ b.checkMove move = false) := by
      intro hc
      cases hc with
      | inl hc => exact hcur hc
      | inr hc =>
        rw [hcm] at hc
        cases hc
    have hfive : hasFive ((b.place b.m_curPlayer move.id.toNat).moveStates
        b.m_curPlayer) move = true := by
      rw [place_moveStates b _ _ hcur]
      exact hasFive_of_run _ move d k hk hrun
    simp only [Board.applyMove, if_neg hguard]
    rw [if_pos ⟨trivial, hfive⟩]
    exact ⟨rfl, rfl, rfl, rfl⟩
  · decide

theorem nthTrue_spec : ∀ (l : List Bool) (k : Nat), k < l.count true →
    ∃ i, nthTrue l k = Option.some i ∧ i < l.length ∧ l.getD i false = true
  | [], k, h => by simp at h
  | true :: l, 0, _ => ⟨0, rfl, Nat.succ_pos _, rfl⟩
  | true :: l, k + 1, h => by
    have hk : k < l.count true := by
      simp [List.count_cons] at h
      omega
    obtain ⟨i, hi, hil, hig⟩ := nthTrue_spec l k hk
    exact ⟨i + 1, by simp [nthTrue, hi], Nat.succ_lt_succ hil, by simpa using hig⟩
  | false :: l, k, h => by
    have hk : k < l.count true := by
      simp [List.count_cons] at h
      omega
    obtain ⟨i, hi, hil, hig⟩ := nthTrue_spec l k hk
    exact ⟨i + 1, by simp [nthTrue, hi], Nat.succ_lt_succ hil, by simpa using hig⟩

theorem nthTrue_rank : ∀ (l : List Bool) (i : Nat), i < l.length →
    l.getD i false = true →
    ∃ k, k < l.count true ∧ nthTrue l k = Option.some i
  | [], i, h, _ => absurd h (Nat.not_lt_zero i)
  | x :: l, 0, _, hg => by
    simp only [List.getD_cons_zero] at hg
    subst hg
    exact ⟨0, by simp [List.count_cons], rfl⟩
  | x :: l, i + 1, h, hg => by
    obtain ⟨k, hk, hnth⟩ :=
      nthTrue_rank l i (Nat.lt_of_succ_lt_succ h) (by simpa using hg)
    cases x with
    | true =>
      refine ⟨k + 1, ?_, by simp [nthTrue, hnth]⟩
      simp [List.count_cons]
      omega
    | false =>
      refine ⟨k, ?_, by simp [nthTrue, hnth]⟩
      simp [List.count_cons]
      omega

/-- C6: `getRandomMove` draws from the set of empty cells: it raises the
"no legal move" error exactly when the None set is empty (equivalently,
when the 225 cells are all occupied); any successful draw is a legal empty
cell, and every legal empty cell is drawn by some seed. -/
theorem getRandomMove_spec (b : Board) (h : BoardInv b) :
    (∀ seed : Nat, b.countNone = 0 →
      b.getRandomMove seed = Except.error "no legal move") ∧
    (b.countNone = 0 ↔
      b.moveCounts Player.Black + b.moveCounts Player.White = 225) ∧
    (∀ seed : Nat, b.countNone ≠ 0 →
      ∃ pose, b.getRandomMove seed = Except.ok pose ∧
        b.checkMove pose = true) ∧
    (∀ pose : Position, b.checkMove pose = true →
      ∃ seed, b.getRandomMove seed = Except.ok pose) := by
  refine ⟨?_, ?_, ?_, ?_⟩
  · intro seed h0
    simp [Board.getRandomMove, h0]
  · have htot := h.total
    simp only [Board.moveCounts]
    omega
  · intro seed hne
    have hcN := h.cntN
    have hk : seed % b.countNone < b.stateNone.count true := by
      have := Nat.mod_lt seed (Nat.pos_of_ne_zero hne)
      omega
    obtain ⟨i, hi, hil, hig⟩ := nthTrue_spec b.stateNone _ hk
    refine ⟨⟨(i : Int)⟩, ?_, ?_⟩
    · simp [Board.getRandomMove, hne, hi]
    · rw [checkMove_true_iff]
      have hi225 : i < 225 := h.lenN ▸ hil
      refine ⟨⟨Int.natCast_nonneg i, ?_⟩, ?_⟩
      · rw [boardSizeInt]
        show (i : Int) < 225
        exact_mod_cast hi225
      · simpa using hig
  · intro pose hcm
    obtain ⟨⟨h0, h1⟩, hbit⟩ := (checkMove_true_iff b pose).mp hcm
    have hcN := h.cntN
    have hil : pose.id.toNat < b.stateNone.length := by
      rw [h.lenN]
      exact toNat_lt_of_range h0 h1
    obtain ⟨k, hk, hnth⟩ := nthTrue_rank b.stateNone _ hil hbit
    have hcnt : b.countNone ≠ 0 := by omega
    have hmod : k % b.countNone = k := Nat.mod_eq_of_lt (by omega)
    refine ⟨k, ?_⟩
    simp only [Board.getRandomMove, if_neg hcnt, hmod, hnth]
    simp [Int.toNat_of_nonneg h0]

/-- Witness for C6: a draw on the initial board succeeds and is legal. -/
theorem getRandomMove_spec_witness :
    ∃ pose, Board.init.getRandomMove 37 = Except.ok pose ∧
      Board.init.checkMove pose = true :=
  (getRandomMove_spec Board.init inv_init).2.2.1 37 (by decide)

/-- C7 counterexample: the line map of `BoardMap` holds
`3*(WIDTH + HEIGHT) - 2 = 88` strings, not `4*(WIDTH + HEIGHT) - 2 = 118`
as claimed. -/
theorem lineMap_size_counterexample :
    lineMapSize = 88 ∧ lineMapSize ≠ 4 * (WIDTH + HEIGHT) - 2 := by
  decide

/-- C7 amended: `BoardMap::m_lineMap` holds `3*(WIDTH + HEIGHT) - 2` line
strings, i.e. 88 for the 15×15 board. -/
theorem lineMap_size_amended :
    lineMapSize = 3 * (WIDTH + HEIGHT) - 2 ∧ lineMapSize = 88 ∧
      4 * (WIDTH + HEIGHT) - 2 = 118 := by
  decide

/-- C8: `getFinalScore(P, W)` is the product of the numeric encodings
(+1 Black, 0 None, −1 White): positive iff `P` equals a non-None `W`,
negative iff the two are opposite colours, zero iff either is None. -/
theorem getFinalScore_spec :
    ∀ (p w : Player),
      getFinalScore p w = p.toInt * w.toInt ∧
      (0 < getFinalScore p w ↔ (w ≠ Player.None ∧ p = w)) ∧
      (getFinalScore p w < 0 ↔
        (p ≠ Player.None ∧ w ≠ Player.None ∧ p ≠ w)) ∧
      (getFinalScore p w = 0 ↔ (p = Player.None ∨ w = Player.None)) := by
  intro p w
  cases p <;> cases w <;> exact ⟨rfl, by decide, by decide, by decide⟩

/-- C9: for `id ∈ [0, 224]`, `x() = id mod 15` and `y() = id div 15`; and
for on-board coordinates, `Position(x, y)` has `id = y*15 + x` and reads
back `x` and `y`. -/
theorem position_roundtrip :
    (∀ id : Int, 0 ≤ id → id ≤ 224 →
      (Position.mk id).x = id % 15 ∧ (Position.mk id).y = id / 15) ∧
    (∀ x y : Int, 0 ≤ x → x < 15 → 0 ≤ y → y < 15 →
      (Position.ofXY x y).id = y * 15 + x ∧
      (Position.ofXY x y).x = x ∧ (Position.ofXY x y).y = y) := by
  constructor
  · intro id h0 h1
    constructor
    · exact Int.tmod_eq_emod h0 (by norm_num)
    · exact Int.tdiv_eq_ediv h0 (by norm_num)
  · intro x y hx0 hx hy0 hy
    refine ⟨rfl, ?_, ?_⟩
    · show (y * 15 + x).tmod 15 = x
      rw [Int.tmod_eq_emod (by omega) (by norm_num)]
      omega
    · show (y * 15 + x).tdiv 15 = y
      rw [Int.tdiv_eq_ediv (by omega) (by norm_num)]
      omega

/-- Witness for C9 at `id = 137` and `(x, y) = (11, 4)`. -/
theorem position_roundtrip_witness :
    (Position.mk 137).x = 137 % 15 ∧ (Position.mk 137).y = 137 / 15 ∧
    (Position.ofXY 11 4).id = 4 * 15 + 11 ∧
    (Position.ofXY 11 4).x = 11 ∧ (Position.ofXY 11 4).y = 4 :=
  ⟨(position_roundtrip.1 137 (by decide) (by decide)).1,
    (position_roundtrip.1 137 (by decide) (by decide)).2,
    (position_roundtrip.2 11 4 (by decide) (by decide) (by decide)
      (by decide)).1,
    (position_roundtrip.2 11 4 (by decide) (by decide) (by decide)
      (by decide)).2.1,
    (position_roundtrip.2 11 4 (by decide) (by decide) (by decide)
      (by decide)).2.2⟩

/-- C10: the sentinel `id = −1` (also the default-constructed `Position`)
is not treated specially by the accessors: under C++ truncating division,
`x()` returns −1 and `y()` returns 0. -/
theorem sentinel_position :
    Position.default.id = -1 ∧
    (Position.mk (-1)).x = -1 ∧ (Position.mk (-1)).y = 0 ∧
    Position.default.x = -1 ∧ Position.default.y = 0 := by
  decide

/-- Witness for C5: the 9th move of the diagonal scenario completes a run
of five on the left diagonal and ends the game. -/
theorem five_implies_end_witness :
    ((Board.init.applyAll (blackDiagonal.take 8)).applyMove
        (Position.ofXY 7 7) true).1 = Player.None ∧
    ((Board.init.applyAll (blackDiagonal.take 8)).applyMove
        (Position.ofXY 7 7) true).2.m_winner =
      (Board.init.applyAll (blackDiagonal.take 8)).m_curPlayer ∧
    ((Board.init.applyAll (blackDiagonal.take 8)).applyMove
        (Position.ofXY 7 7) true).2.m_curPlayer = Player.None ∧
    (((Board.init.applyAll (blackDiagonal.take 8)).applyMove
        (Position.ofXY 7 7) true).2.status).ended = true :=
  five_implies_end.1 (Board.init.applyAll (blackDiagonal.take 8))
    (Position.ofXY 7 7) Direction.LeftDiag 4 (by decide) (by decide)
    (by decide) (by decide)

end Gomoku
